import Mathlib

/-!
Verification development for the pyCloudSave save-synchronization engine.

Strings are modelled as `List Char` (`Str`), timestamps as `Nat`
(`datetime.MINYEAR` start-of-time maps to `0`, a nullable timestamp to
`Option Nat`), file contents as `List Nat` (bytes), and the two registries as
association lists with Python-`dict` semantics (unique keys, in-place update,
append on fresh insert).  Each definition is a direct translation of the named
Python function from `common.py`, `local.py`, `remote.py` or `pyCloudSave.py`;
the few places where an external collaborator (the `zipfile` module, `pathlib`
globbing, the storage backend) is modelled rather than translated are marked
in the corresponding doc comment.
-/

abbrev Str := List Char

abbrev Bytes := List Nat

/-- Python `\s` on ASCII input: space, tab, newline, carriage return,
vertical tab, form feed. -/
def pyIsSpace (c : Char) : Bool :=
  c == ' ' || c == '\t' || c == '\n' || c == '\r' || c == '\x0b' || c == '\x0c'

/-- Characters treated as separators by `re.split(r"[\s_]+", name)` in
`common.normalized_split`: whitespace and underscore. -/
def isNameSep (c : Char) : Bool := pyIsSpace c || c == '_'

/-- Python `\w` on ASCII input (no underscores survive the split in
`normalized_split`, but the class itself contains them). -/
def isWordChar (c : Char) : Bool := c.isAlphanum || c == '_'

/-- The ASCII case table behind Python `str.lower`. -/
def lowerPairs : List (Char × Char) :=
  [('A', 'a'), ('B', 'b'), ('C', 'c'), ('D', 'd'), ('E', 'e'), ('F', 'f'),
   ('G', 'g'), ('H', 'h'), ('I', 'i'), ('J', 'j'), ('K', 'k'), ('L', 'l'),
   ('M', 'm'), ('N', 'n'), ('O', 'o'), ('P', 'p'), ('Q', 'q'), ('R', 'r'),
   ('S', 's'), ('T', 't'), ('U', 'u'), ('V', 'v'), ('W', 'w'), ('X', 'x'),
   ('Y', 'y'), ('Z', 'z')]

/-- Python `str.lower` restricted to ASCII input, per character. -/
def pyLower (c : Char) : Char :=
  ((lowerPairs.find? (fun p => p.1 == c)).map Prod.snd).getD c

/-- Auxiliary splitter: `splitRunsGo p s inRun acc` emits the chunk
accumulated in `acc` (reversed) whenever a maximal nonempty run of separator
characters is met (`inRun` records being inside such a run), mirroring
`re.split(r"[X]+", s)` which keeps a leading/trailing empty chunk but merges
consecutive separators. -/
def splitRunsGo (p : Char → Bool) : Str → Bool → Str → List Str
  | [], true, _ => [[]]
  | [], false, acc => [acc.reverse]
  | c :: cs, true, _ =>
    if p c then splitRunsGo p cs true [] else splitRunsGo p cs false [c]
  | c :: cs, false, acc =>
    if p c then acc.reverse :: splitRunsGo p cs true []
    else splitRunsGo p cs false (c :: acc)

/-- Model of `re.split(r"[X]+", s)` for a single-character class test `p`. -/
def splitRuns (p : Char → Bool) (s : Str) : List Str := splitRunsGo p s false []

/-- Per-part body of the loop in `common.normalized_split`: `&` becomes
`and`, the part is lowercased, non-word characters are stripped, and empty
results are skipped (`if part: yield part`). -/
def partTransform (part : Str) : Option Str :=
  let part1 := if part = ['&'] then ['a', 'n', 'd'] else part
  let part2 := (part1.map pyLower).filter isWordChar
  if part2.isEmpty then none else some part2

/-- Translation of `common.normalized_split`. -/
def normalized_split (s : Str) : List Str :=
  (splitRuns isNameSep s).filterMap partTransform

/-- Translation of `common.normalize_name`: join the normalized parts
with `_`. -/
def normalize_name (s : Str) : Str :=
  List.intercalate ['_'] (normalized_split s)

/-- What `partTransform` does to a part, expressed as a function of the
lowercased part only (used to show `normalize_name` is case-insensitive). -/
def partTransformLowered (q : Str) : Option Str :=
  let q1 := if q = ['&'] then ['a', 'n', 'd'] else q.filter isWordChar
  if q1.isEmpty then none else some q1

theorem pyLower_eq_amp {c : Char} (h : pyLower c = '&') : c = '&' := by
  unfold pyLower at h
  cases hf : lowerPairs.find? (fun p => p.1 == c) with
  | none =>
    rw [hf] at h
    simpa using h
  | some p =>
    rw [hf] at h
    simp only [Option.map_some', Option.getD_some] at h
    have hmem : p ∈ lowerPairs := List.mem_of_find?_eq_some hf
    have hall : ∀ q ∈ lowerPairs, q.2 ≠ '&' := by decide
    exact absurd h (hall p hmem)

theorem map_pyLower_eq_amp {part : Str} (h : part.map pyLower = ['&']) :
    part = ['&'] := by
  cases part with
  | nil => simp at h
  | cons c cs =>
    simp only [List.map_cons, List.cons.injEq] at h
    obtain ⟨hc, hcs⟩ := h
    have hnil : cs = [] := by simpa using hcs
    subst hnil
    rw [pyLower_eq_amp hc]

theorem partTransform_factor (part : Str) :
    partTransform part = partTransformLowered (part.map pyLower) := by
  by_cases hp : part = ['&']
  · subst hp
    decide
  · have hq : ¬ part.map pyLower = ['&'] := fun h => hp (map_pyLower_eq_amp h)
    unfold partTransform partTransformLowered
    simp [hp, hq]

theorem normalized_split_factor (s : Str) :
    normalized_split s =
      ((splitRuns isNameSep s).map (List.map pyLower)).filterMap
        partTransformLowered := by
  unfold normalized_split
  rw [List.filterMap_map]
  have hfun : partTransform = partTransformLowered ∘ (List.map pyLower) :=
    funext fun part => partTransform_factor part
  rw [hfun]

/-- C4 counterexample: the claim asserts
`normalize("Pascal's Wager") == normalize("pascal s wager")`, but
`common.normalize_name` strips punctuation inside a whitespace-delimited
token, so the left side is `pascals_wager` while the right side is
`pascal_s_wager`. -/
theorem c4_counterexample :
    ¬ (normalize_name ("Pascal".toList ++ ['\''] ++ "s Wager".toList)
       = normalize_name "pascal s wager".toList) := by decide

/-- C4 (amended): `normalize_name` maps any two spellings that differ only in
casing and in the layout of whitespace/underscore separators to the same key
(formally: spellings whose separator-delimited token sequences agree after
per-character lowercasing); it is not insensitive to punctuation changes that
add or remove separators. -/
theorem c4_normalize_casing_ws (a b : Str)
    (h : (splitRuns isNameSep a).map (List.map pyLower)
       = (splitRuns isNameSep b).map (List.map pyLower)) :
    normalize_name a = normalize_name b := by
  unfold normalize_name
  rw [normalized_split_factor a, normalized_split_factor b, h]

/-- Witness for C4 (amended) at a concrete input. -/
theorem c4_normalize_casing_ws_witness :
    normalize_name "Grim Dawn".toList = normalize_name "GRIM__dawn".toList :=
  c4_normalize_casing_ws "Grim Dawn".toList "GRIM__dawn".toList (by decide)

/-- Matcher for the star-separated tail of a compiled glob: `segsMatch segs s`
decides whether `s` is in the language `Σ* l₁ Σ* l₂ … Σ* lₙ` (each literal
preceded by an arbitrary gap, ending exactly after the last literal), for
`segs = [l₁, …, lₙ]`.  The gap search is an explicit enumeration of all
suffixes, making the existential semantics of the regex `.*?` direct. -/
def segsMatch : List Str → Str → Bool
  | [], s => s.isEmpty
  | l :: rest, s =>
    s.tails.any (fun t => l.isPrefixOf t && segsMatch rest (t.drop l.length))

/-- Boolean model of `re.fullmatch` for the patterns compiled in
`local.Local._get_save_files`: the pattern is the list of `re.escape`d
literals obtained from `filter.split('*')`, each `*` having been compiled to
the non-greedy `.*?` (greediness does not affect whether a full match
exists). -/
def globFullmatch : List Str → Str → Bool
  | [], s => s.isEmpty
  | l :: rest, s => l.isPrefixOf s && segsMatch rest (s.drop l.length)

/-- Declarative interleaving `g₁ l₁ g₂ l₂ … gₙ lₙ` of literals and gaps. -/
def interStar : List Str → List Str → Str
  | [], _ => []
  | _ :: _, [] => []
  | l :: rest, g :: gaps => g ++ l ++ interStar rest gaps

/-- Declarative language of the star-separated tail of a compiled glob. -/
def StarSpec (segs : List Str) (s : Str) : Prop :=
  ∃ gaps : List Str, gaps.length = segs.length ∧ s = interStar segs gaps

/-- Declarative language of a full compiled glob `l₀ Σ* l₁ … Σ* lₙ`:
`s` decomposes as the literals in order with arbitrary gaps between them. -/
def GlobSpec (segs : List Str) (s : Str) : Prop :=
  match segs with
  | [] => s = []
  | l :: rest => ∃ t, s = l ++ t ∧ StarSpec rest t

theorem segsMatch_iff (segs : List Str) (s : Str) :
    segsMatch segs s = true ↔ StarSpec segs s := by
  induction segs generalizing s with
  | nil =>
    simp only [segsMatch, List.isEmpty_iff, StarSpec]
    constructor
    · rintro rfl
      exact ⟨[], rfl, rfl⟩
    · rintro ⟨gaps, hlen, rfl⟩
      simp [interStar]
  | cons l rest ih =>
    simp only [segsMatch, List.any_eq_true, Bool.and_eq_true,
      List.isPrefixOf_iff_prefix, List.mem_tails]
    constructor
    · rintro ⟨t, hsuf, hpre, hm⟩
      obtain ⟨u, hu⟩ := hsuf
      obtain ⟨r, hr⟩ := hpre
      obtain ⟨gaps, hlen, hg⟩ := (ih _).mp hm
      refine ⟨u :: gaps, by simp [hlen], ?_⟩
      have hdrop : t.drop l.length = r := by rw [← hr, List.drop_left]
      rw [hdrop] at hg
      simp only [interStar, ← hg, ← hu, ← hr]
      rw [List.append_assoc]
    · rintro ⟨gaps, hlen, hs⟩
      match gaps, hlen with
      | g :: gaps, hlen =>
        simp only [interStar] at hs
        refine ⟨l ++ interStar rest gaps, ⟨g, by rw [hs, List.append_assoc]⟩,
          List.prefix_append l _, ?_⟩
        rw [List.drop_left]
        exact (ih _).mpr ⟨gaps, by simpa using hlen, rfl⟩

theorem globFullmatch_iff (segs : List Str) (s : Str) :
    globFullmatch segs s = true ↔ GlobSpec segs s := by
  cases segs with
  | nil => simp [globFullmatch, GlobSpec, List.isEmpty_iff]
  | cons l rest =>
    simp only [globFullmatch, Bool.and_eq_true, List.isPrefixOf_iff_prefix,
      GlobSpec]
    constructor
    · rintro ⟨⟨t, ht⟩, hm⟩
      refine ⟨t, ht.symm, ?_⟩
      have hdrop : s.drop l.length = t := by rw [← ht, List.drop_left]
      rw [hdrop] at hm
      exact (segsMatch_iff rest t).mp hm
    · rintro ⟨t, rfl, hstar⟩
      refine ⟨List.prefix_append l t, ?_⟩
      rw [List.drop_left]
      exact (segsMatch_iff rest t).mpr hstar

/-- Whitespace trim on the left, as consumed by the `\s*` right of a comma in
`re.split(r"\s*\,\s*", filters)`. -/
def trimLeftWS (s : Str) : Str := s.dropWhile pyIsSpace

/-- Whitespace trim on the right, as consumed by the `\s*` left of a comma. -/
def trimRightWS (s : Str) : Str := (s.reverse.dropWhile pyIsSpace).reverse

/-- Auxiliary for `splitCommaWS`: after splitting at every comma, the
whitespace adjacent to each comma is consumed, so every part except the last
is right-trimmed and every part except the first is left-trimmed. -/
def splitCommaAux : Str → List Str → List Str
  | p, [] => [p]
  | p, q :: rest => trimRightWS p :: splitCommaAux (trimLeftWS q) rest

/-- Model of `re.split(r"\s*\,\s*", filters)` in `_get_save_files`. -/
def splitCommaWS (s : Str) : List Str :=
  match s.splitOn ',' with
  | [] => []
  | p :: rest => splitCommaAux p rest

/-- Model of `re.split(r"\\|/", s)`: split at every forward or backward
slash. -/
def splitSeps (t : Str) : List Str :=
  (t.splitOn '/').flatMap (fun u => u.splitOn '\\')

/-- One step of `posixpath.join`: a component starting with the separator
resets the path; otherwise it is appended, inserting a separator unless the
accumulated path is empty or already ends with one. -/
def osJoinStep (a b : Str) : Str :=
  if b.head? = some '/' then b
  else if a.isEmpty || a.getLast? = some '/' then a ++ b
  else a ++ '/' :: b

/-- Model of `os.path.join(*parts)` on a POSIX host. -/
def osJoin : List Str → Str
  | [] => []
  | c :: rest => rest.foldl osJoinStep c

/-- Compilation of one filter token in `_get_save_files`: path separators are
normalized via `os.path.join(*re.split(r"\\|/", f))`, then the token is cut
at each `*` into `re.escape`d literals (joined by `.*?` in the Python
regex). -/
def compileToken (t : Str) : List Str :=
  (osJoin (splitSeps t)).splitOn '*'

/-- Leading-`!` handling for one token of the filter expression: returns
whether the token is an exclusion, plus its compiled pattern. -/
def parseToken (t : Str) : Bool × List Str :=
  match t with
  | '!' :: rest => (true, compileToken rest)
  | _ => (false, compileToken t)

/-- The include/exclude pattern lists built by the loop at the top of
`local.Local._get_save_files` (empty tokens are skipped). -/
def parse_filters (filters : Str) : List (List Str) × List (List Str) :=
  let toks := (splitCommaWS filters).filter (fun t => !t.isEmpty)
  (toks.filterMap (fun t =>
     match parseToken t with
     | (false, p) => some p
     | (true, _) => none),
   toks.filterMap (fun t =>
     match parseToken t with
     | (true, p) => some p
     | (false, _) => none))

/-- One filesystem node below a save's root directory, as enumerated by
`root.glob('**/*')`: `rel` is `str(file.relative_to(root))` with `/` as the
host separator, `isFile` is `file.is_file()` (true exactly for regular
files), `content` the file's bytes and `mtime` its `st_mtime` (0 is the
epoch, i.e. the minimum). -/
structure Entry where
  rel : Str
  isFile : Bool
  content : Bytes
  mtime : Nat
deriving DecidableEq

/-- A filesystem: existing directory roots mapped to the nodes below them. -/
abbrev FSys := List (Str × List Entry)

/-- Lookup in an association list with Python-`dict` semantics. -/
def alGet {α : Type} : List (Str × α) → Str → Option α
  | [], _ => none
  | p :: l, k => if p.1 == k then some p.2 else alGet l k

/-- Python-`dict` assignment `d[k] = v`: replace in place when the key is
present, append otherwise. -/
def alSet {α : Type} : List (Str × α) → Str → α → List (Str × α)
  | [], k, v => [(k, v)]
  | p :: l, k, v => if p.1 == k then (k, v) :: l else p :: alSet l k v

/-- Python-`dict` deletion `del d[k]` (on registries the key is unique). -/
def alDel {α : Type} (l : List (Str × α)) (k : Str) : List (Str × α) :=
  l.filter (fun p => !(p.1 == k))

/-- Model of `Path(root).glob('**/*')`: the nodes below `root` when the root
directory exists, and the empty sequence when it does not (pathlib yields
nothing for a nonexistent root rather than raising). -/
def glob_all (fsys : FSys) (root : Str) : List Entry :=
  (alGet fsys root).getD []

/-- The per-file test and filter of `local.Local._get_save_files`: keep the
regular files whose root-relative name fullmatches every inclusion pattern
and no exclusion pattern. -/
def select_files (filters : Str) (entries : List Entry) : List Entry :=
  let inc := (parse_filters filters).1
  let ign := (parse_filters filters).2
  entries.filter (fun e =>
    e.isFile && inc.all (fun p => globFullmatch p e.rel)
      && !(ign.any (fun p => globFullmatch p e.rel)))

/-- Translation of `local.Local._get_save_files` for a save with the given
root and filter expression. -/
def get_save_files (fsys : FSys) (root filters : Str) : List Entry :=
  select_files filters (glob_all fsys root)

/-- Translation of `local.Local._get_last_mod_time`: maximum `st_mtime` over
the selected files, `None` when that maximum is the initial `0`. -/
def get_last_mod_time (fsys : FSys) (root filters : Str) : Option Nat :=
  let latest := (get_save_files fsys root filters).foldl
    (fun acc e => if e.mtime > acc then e.mtime else acc) 0
  if latest = 0 then none else some latest

/-- C2: file selection yields exactly the regular files under the root whose
root-relative path fullmatches every inclusion pattern and no exclusion
pattern of the filter expression (`*` matching any run of characters, and an
expression without inclusion tokens keeping every non-excluded file, since
the inclusion quantifier is then vacuous); in particular, on a root holding
`save1.dat` and `save2.dat`, the filter `*dat, !*save1*` selects only
`save2.dat`. -/
theorem c2_select_files_characterization :
    (∀ (fsys : FSys) (root filters : Str) (e : Entry),
        e ∈ get_save_files fsys root filters ↔
          e ∈ glob_all fsys root ∧ e.isFile = true ∧
            (∀ p ∈ (parse_filters filters).1, GlobSpec p e.rel) ∧
            (∀ p ∈ (parse_filters filters).2, ¬ GlobSpec p e.rel))
  ∧ get_save_files
      [("/saves".toList,
        [⟨"save1.dat".toList, true, [1], 3⟩,
         ⟨"save2.dat".toList, true, [2], 5⟩])]
      "/saves".toList "*dat, !*save1*".toList
    = [⟨"save2.dat".toList, true, [2], 5⟩] := by
  constructor
  · intro fsys root filters e
    simp only [get_save_files, select_files, List.mem_filter,
      Bool.and_eq_true, List.all_eq_true, Bool.not_eq_true', List.any_eq_false,
      Bool.not_eq_true, globFullmatch_iff, and_assoc]
  · decide

/-- C9: for a save whose root directory does not exist, file selection yields
the empty sequence rather than an error, and the derived last-modification
timestamp is therefore null. -/
theorem c9_missing_root (fsys : FSys) (root filters : Str)
    (h : alGet fsys root = none) :
    get_save_files fsys root filters = []
    ∧ get_last_mod_time fsys root filters = none := by
  have hg : glob_all fsys root = [] := by simp [glob_all, h]
  refine ⟨?_, ?_⟩
  · simp [get_save_files, hg, select_files]
  · simp [get_last_mod_time, get_save_files, hg, select_files]

/-- Witness for C9 at a concrete input: an empty filesystem has no root
`/missing`. -/
theorem c9_missing_root_witness :
    get_save_files [] "/missing".toList "*dat".toList = []
    ∧ get_last_mod_time [] "/missing".toList "*dat".toList = none :=
  c9_missing_root [] "/missing".toList "*dat".toList rfl

theorem alGet_of_mem_nodup {α : Type} {l : List (Str × α)} {k : Str} {v : α}
    (hnd : (l.map Prod.fst).Nodup) (hmem : (k, v) ∈ l) : alGet l k = some v := by
  induction l with
  | nil => cases hmem
  | cons p l ih =>
    simp only [List.map_cons, List.nodup_cons] at hnd
    rcases List.mem_cons.mp hmem with heq | hmem2
    · rw [← heq]
      simp [alGet]
    · have hk : k ∈ l.map Prod.fst := List.mem_map.mpr ⟨(k, v), hmem2, rfl⟩
      have hne : (p.1 == k) = false :=
        beq_eq_false_iff_ne.mpr (fun heq => hnd.1 (heq ▸ hk))
      simp [alGet, hne, ih hnd.2 hmem2]

theorem alSet_append {α : Type} {t : List (Str × α)} {k : Str} {v : α}
    (h : alGet t k = none) : alSet t k v = t ++ [(k, v)] := by
  induction t with
  | nil => rfl
  | cons p l ih =>
    simp only [alGet] at h
    by_cases hp : (p.1 == k) = true
    · simp [hp] at h
    · simp only [Bool.not_eq_true] at hp
      simp only [hp, Bool.false_eq_true, if_false] at h
      simp [alSet, hp, ih h]

theorem alGet_append_left_none {α : Type} {t s : List (Str × α)} {k : Str}
    (h : alGet t k = none) : alGet (t ++ s) k = alGet s k := by
  induction t with
  | nil => rfl
  | cons p l ih =>
    simp only [alGet] at h
    by_cases hp : (p.1 == k) = true
    · simp [hp] at h
    · simp only [Bool.not_eq_true] at hp
      simp only [hp, Bool.false_eq_true, if_false] at h
      simp [List.cons_append, alGet, hp, ih h]

theorem foldl_alSet_disjoint {α : Type} :
    ∀ (arch t : List (Str × α)),
      (arch.map Prod.fst).Nodup →
      (∀ k, k ∈ arch.map Prod.fst → alGet t k = none) →
      arch.foldl (fun t p => alSet t p.1 p.2) t = t ++ arch := by
  intro arch
  induction arch with
  | nil => intro t _ _; simp
  | cons q rest ih =>
    intro t hnd hdis
    simp only [List.map_cons, List.nodup_cons] at hnd
    have hq : alGet t q.1 = none :=
      hdis q.1 (by rw [List.map_cons]; exact List.mem_cons_self _ _)
    simp only [List.foldl_cons, alSet_append hq]
    rw [ih (t ++ [q]) hnd.2 ?_]
    · simp
    · intro k hk
      have hkt : alGet t k = none :=
        hdis k (by rw [List.map_cons]; exact List.mem_cons_of_mem _ hk)
      rw [alGet_append_left_none hkt]
      have hqk : (q.1 == k) = false :=
        beq_eq_false_iff_ne.mpr (fun heq => hnd.1 (heq ▸ hk))
      simp [alGet, hqk]

/-- Translation of `local.Local.pack_save_files`: the archive is modelled as
the list of its entries; `zf.write(file, file.relative_to(save['root']))`
(an external `zipfile` call) stores the file's bytes under the entry name
`file.relative_to(root)`, which for a node enumerated by `root.glob('**/*')`
is its root-relative path `Entry.rel`. -/
def pack_save_files (fsys : FSys) (root filters : Str) : List (Str × Bytes) :=
  (get_save_files fsys root filters).map (fun e => (e.rel, e.content))

/-- Translation of `local.Local.unpack_save_files`: `zf.extractall(root)` (an
external `zipfile` call) writes every archive entry into the target
directory at its entry name, creating intermediate directories and
overwriting existing files; the target directory is modelled as a mapping
from relative path to bytes. -/
def unpack_save_files (target : List (Str × Bytes))
    (archive : List (Str × Bytes)) : List (Str × Bytes) :=
  archive.foldl (fun t p => alSet t p.1 p.2) target

/-- C3: packing the selected files of a save and unpacking the archive into
an empty directory reproduces every selected file byte-identically at its
root-relative path, and no archive entry name starts with the root's
absolute path (entry names are exactly the root-relative paths).  The
hypotheses state that the enumerated nodes have distinct relative paths none
of which is absolute, and that the root is an absolute path — all guaranteed
by `pathlib` for a real directory walk. -/
theorem c3_pack_unpack_roundtrip (fsys : FSys) (root filters : Str)
    (hnd : ((glob_all fsys root).map Entry.rel).Nodup)
    (hroot : root.head? = some '/')
    (hrel : ∀ e ∈ glob_all fsys root, e.rel.head? ≠ some '/') :
    (∀ e ∈ get_save_files fsys root filters,
        alGet (unpack_save_files [] (pack_save_files fsys root filters)) e.rel
          = some e.content)
    ∧ (∀ p ∈ pack_save_files fsys root filters, ¬ (root <+: p.1)) := by
  have hsub : List.Sublist (get_save_files fsys root filters)
      (glob_all fsys root) := List.filter_sublist _
  have hselnd : ((get_save_files fsys root filters).map Entry.rel).Nodup :=
    List.Nodup.sublist (hsub.map Entry.rel) hnd
  have hkeys : (pack_save_files fsys root filters).map Prod.fst
      = (get_save_files fsys root filters).map Entry.rel := by
    simp [pack_save_files, List.map_map, Function.comp]
  have hunp : unpack_save_files [] (pack_save_files fsys root filters)
      = pack_save_files fsys root filters := by
    unfold unpack_save_files
    rw [foldl_alSet_disjoint (pack_save_files fsys root filters) []
      (by rw [hkeys]; exact hselnd) (fun k _ => rfl)]
    simp
  refine ⟨?_, ?_⟩
  · intro e he
    rw [hunp]
    exact alGet_of_mem_nodup (by rw [hkeys]; exact hselnd)
      (List.mem_map.mpr ⟨e, he, rfl⟩)
  · intro p hp
    obtain ⟨e, he, rfl⟩ := List.mem_map.mp hp
    have heg : e ∈ glob_all fsys root := hsub.mem he
    show ¬ (root <+: e.rel)
    rintro ⟨t, ht⟩
    cases hr : root with
    | nil => rw [hr] at hroot; cases hroot
    | cons c r =>
      rw [hr] at hroot ht
      have hc : c = '/' := by
        simp only [List.head?] at hroot
        exact Option.some.inj hroot
      apply hrel e heg
      rw [← ht, hc]
      rfl

/-- Witness for C3 at a concrete two-file save. -/
theorem c3_pack_unpack_roundtrip_witness :
    alGet
      (unpack_save_files []
        (pack_save_files
          [("/r".toList,
            [⟨"a.dat".toList, true, [1], 1⟩, ⟨"b.dat".toList, true, [9], 2⟩])]
          "/r".toList "*dat".toList))
      "b.dat".toList = some [9] :=
  (c3_pack_unpack_roundtrip
      [("/r".toList,
        [⟨"a.dat".toList, true, [1], 1⟩, ⟨"b.dat".toList, true, [9], 2⟩])]
      "/r".toList "*dat".toList (by decide) (by decide) (by decide)).1
    ⟨"b.dat".toList, true, [9], 2⟩ (by decide)

theorem alGet_set_self {α : Type} (l : List (Str × α)) (k : Str) (v : α) :
    alGet (alSet l k v) k = some v := by
  induction l with
  | nil => simp [alSet, alGet]
  | cons p l ih =>
    by_cases hp : (p.1 == k) = true
    · simp [alSet, alGet, hp]
    · simp only [Bool.not_eq_true] at hp
      simp [alSet, alGet, hp, ih]

theorem alGet_set_ne {α : Type} (l : List (Str × α)) {k kx : Str} (v : α)
    (h : kx ≠ k) : alGet (alSet l k v) kx = alGet l kx := by
  have hkk : (k == kx) = false := beq_eq_false_iff_ne.mpr (Ne.symm h)
  induction l with
  | nil => simp [alSet, alGet, hkk]
  | cons p l ih =>
    by_cases hp : (p.1 == k) = true
    · have hpk : p.1 = k := eq_of_beq hp
      have hpx : (p.1 == kx) = false := by rw [hpk]; exact hkk
      simp [alSet, alGet, hp, hkk, hpx]
    · simp only [Bool.not_eq_true] at hp
      simp only [alSet, hp, Bool.false_eq_true, if_false, alGet]
      by_cases hq : (p.1 == kx) = true
      · simp [hq]
      · simp only [Bool.not_eq_true] at hq
        simp [hq, ih]

theorem alGet_del_self {α : Type} (l : List (Str × α)) (k : Str) :
    alGet (alDel l k) k = none := by
  induction l with
  | nil => rfl
  | cons p l ih =>
    by_cases hp : (p.1 == k) = true
    · simpa [alDel, List.filter_cons, hp] using ih
    · simp only [Bool.not_eq_true] at hp
      simpa [alDel, List.filter_cons, hp, alGet] using ih

theorem alGet_del_ne {α : Type} (l : List (Str × α)) {k kx : Str}
    (h : kx ≠ k) : alGet (alDel l k) kx = alGet l kx := by
  induction l with
  | nil => rfl
  | cons p l ih =>
    by_cases hp : (p.1 == k) = true
    · have hpk : p.1 = k := eq_of_beq hp
      have hpx : (p.1 == kx) = false :=
        beq_eq_false_iff_ne.mpr (by rw [hpk]; exact Ne.symm h)
      simpa [alDel, List.filter_cons, hp, alGet, hpx] using ih
    · simp only [Bool.not_eq_true] at hp
      by_cases hq : (p.1 == kx) = true
      · simp [alDel, List.filter_cons, hp, alGet, hq]
      · simp only [Bool.not_eq_true] at hq
        simpa [alDel, List.filter_cons, hp, alGet, hq] using ih

/-- A Save record of the local registry (`local.py`): the persisted fields
`name`, `root`, `filters`, `version`, `last_sync` plus the in-memory
`id_name` and derived `last_modification` set on load. -/
structure LSave where
  name : Str
  root : Str
  filters : Str
  version : Option Str
  last_sync : Option Nat
  id_name : Str
  last_modification : Option Nat
deriving DecidableEq

/-- The local registry mapping normalized key to Save. -/
abbrev LReg := List (Str × LSave)

/-- Python truthiness guard `if arg: field = arg` for a string-valued field:
`None` and the empty string leave the field unchanged. -/
def updStr (cur : Str) : Option Str → Str
  | some x => if x.isEmpty then cur else x
  | none => cur

/-- Python truthiness guard for an optional-string field. -/
def updOptStr (cur : Option Str) : Option Str → Option Str
  | some x => if x.isEmpty then cur else some x
  | none => cur

/-- Python truthiness guard for the `last_sync` field (a `datetime` object is
always truthy). -/
def updTime (cur : Option Nat) : Option Nat → Option Nat
  | some t => some t
  | none => cur

/-- Translation of `local.Local.edit`: optional fields are updated under
Python truthiness, then a truthy `new_name` renames the save and, when the
new normalized key differs, re-keys the entry (set at the new key, delete
the old key, with no collision check).  `none` models the `KeyError` raised
when `save_name` is not a key of the registry. -/
def local_edit (reg : LReg) (save_name : Str)
    (new_name root filters version : Option Str) (last_sync : Option Nat) :
    Option LReg :=
  match alGet reg save_name with
  | none => none
  | some save =>
    let save1 : LSave :=
      { save with
        root := updStr save.root root
        filters := updStr save.filters filters
        version := updOptStr save.version version
        last_sync := updTime save.last_sync last_sync }
    match new_name with
    | none => some (alSet reg save_name save1)
    | some nn =>
      if nn.isEmpty then some (alSet reg save_name save1)
      else
        let save2 : LSave := { save1 with name := nn }
        let nid := normalize_name nn
        if nid = save_name then some (alSet reg save_name save2)
        else
          let save3 : LSave := { save2 with id_name := nid }
          some (alDel (alSet (alSet reg save_name save3) nid save3) save_name)

/-- Translation of `local.Local.track`: raises (`none`) when the normalized
key is already tracked, otherwise inserts the new Save (filters default to
the empty expression, `last_modification` is computed from the
filesystem). -/
def local_track (fsys : FSys) (reg : LReg) (name root : Str)
    (filters version : Option Str) : Option LReg :=
  let id_name := normalize_name name
  if (alGet reg id_name).isSome then none
  else
    let fl := filters.getD []
    some (alSet reg id_name
      ⟨name, root, fl, version, none, id_name,
       get_last_mod_time fsys root fl⟩)

/-- A Save record of the remote registry (`remote.py`): `size` is absent
(`none`) until the first upload. -/
structure RSave where
  name : Str
  root_hint : Option Str
  filters_hint : Option Str
  version : Option Str
  last_upload : Option Nat
  id_name : Str
  size : Option Nat
deriving DecidableEq

/-- The remote registry mapping normalized key to Save. -/
abbrev RReg := List (Str × RSave)

/-- Observable state of the remote store: the persisted registry document and
the set of artifact file names held by the storage backend. -/
structure RState where
  saves : RReg
  files : List Str
deriving DecidableEq

/-- Translation of `remote.FilebasedRemote._get_filesave_name`. -/
def filesave_name (id_name : Str) : Str := id_name ++ ".zip".toList

/-- Translation of `remote.FilebasedRemote.register_new_save`: inserts (or
silently overwrites — there is no duplicate check) the entry at the
normalized key, with no upload yet and no size. -/
def register_new_save (st : RState) (name : Str)
    (root_hint filters_hint version : Option Str) : RState :=
  let id_name := normalize_name name
  { st with
    saves := alSet st.saves id_name
      ⟨name, root_hint, filters_hint, version, none, id_name, none⟩ }

/-- Model of `RemoteFS.rename_file` on the backend's artifact names. -/
def renameFile (files : List Str) (oldn newn : Str) : List Str :=
  files.map (fun n => if n == oldn then newn else n)

/-- Translation of `remote.FilebasedRemote.edit_save`: hint fields are
updated under Python truthiness; a truthy `new_name` renames the save and,
when the normalized key changes, re-keys the registry entry and renames the
stored artifact.  `none` models the `KeyError` on an absent key. -/
def edit_save (st : RState) (id_name : Str)
    (new_name root_hint filters_hint version : Option Str) : Option RState :=
  match alGet st.saves id_name with
  | none => none
  | some save =>
    let save1 : RSave :=
      { save with
        root_hint := updOptStr save.root_hint root_hint
        filters_hint := updOptStr save.filters_hint filters_hint
        version := updOptStr save.version version }
    match new_name with
    | none => some { st with saves := alSet st.saves id_name save1 }
    | some nn =>
      if nn.isEmpty then some { st with saves := alSet st.saves id_name save1 }
      else
        let save2 : RSave := { save1 with name := nn }
        let nid := normalize_name nn
        if id_name = nid then
          some { st with saves := alSet st.saves id_name save2 }
        else
          let save3 : RSave := { save2 with id_name := nid }
          some { saves := alDel (alSet (alSet st.saves id_name save3) nid save3)
                   id_name,
                 files := renameFile st.files (filesave_name id_name)
                   (filesave_name nid) }

/-- Translation of `remote.FilebasedRemote.upload_save`: stores the artifact
under the key-derived name, then records the upload timestamp and the
artifact size in the registry.  `none` models the `KeyError` on an absent
key. -/
def upload_save (st : RState) (id_name : Str) (size t : Nat) : Option RState :=
  match alGet st.saves id_name with
  | none => none
  | some save =>
    some { saves := alSet st.saves id_name
             { save with last_upload := some t, size := some size },
           files := if filesave_name id_name ∈ st.files then st.files
             else st.files ++ [filesave_name id_name] }

/-- Translation of `remote.FilebasedRemote.load_save`: `true` when the
artifact exists and is copied to the output file, `false` for the
`KeyError`/NotFound raised when the backend holds no artifact for the
key. -/
def load_save (st : RState) (id_name : Str) : Bool :=
  filesave_name id_name ∈ st.files

/-- Translation of `remote.FilebasedRemote.delete_save`: remove the registry
entry in memory, delete the artifact from the backend, then commit the
registry document — in that order.  `none` models the `KeyError` on an
absent key and the backend error when the artifact is already missing (in
both cases the persisted state is unchanged). -/
def delete_save (st : RState) (id_name : Str) : Option RState :=
  match alGet st.saves id_name with
  | none => none
  | some _ =>
    if filesave_name id_name ∈ st.files then
      some { saves := alDel st.saves id_name,
             files := st.files.filter (fun n => !(n == filesave_name id_name)) }
    else none

/-- The sequence of observable store states passed through by
`delete_save`: initial state, state after `fs.delete_file` (registry
document not yet rewritten), state after `_save_registry`.  When an
exception fires before any backend mutation the trace stays at the initial
state. -/
def delete_trace (st : RState) (id_name : Str) : List RState :=
  match alGet st.saves id_name with
  | none => [st]
  | some _ =>
    if filesave_name id_name ∈ st.files then
      [st,
       { st with
         files := st.files.filter (fun n => !(n == filesave_name id_name)) },
       { saves := alDel st.saves id_name,
         files := st.files.filter (fun n => !(n == filesave_name id_name)) }]
    else [st]

/-- An orphaned artifact: the persisted registry no longer has the key but
the backend still holds its artifact. -/
def orphaned (st : RState) (id_name : Str) : Prop :=
  alGet st.saves id_name = none ∧ filesave_name id_name ∈ st.files

instance (st : RState) (id_name : Str) : Decidable (orphaned st id_name) :=
  inferInstanceAs
    (Decidable (alGet st.saves id_name = none ∧ filesave_name id_name ∈ st.files))

/-- C5 counterexample: renaming the save keyed `alpha` to the display name
`Beta` collides with the existing `beta` entry, yet `Local.edit` performs
the re-key without any error and silently overwrites the `beta` entry
(whose previous record is lost). -/
theorem c5_counterexample :
    local_edit
      [("alpha".toList,
        ⟨"Alpha".toList, "/a".toList, [], none, none, "alpha".toList, none⟩),
       ("beta".toList,
        ⟨"BetaOld".toList, "/b".toList, [], none, some 3, "beta".toList,
         none⟩)]
      "alpha".toList (some "Beta".toList) none none none none
    = some [("beta".toList,
        ⟨"Beta".toList, "/a".toList, [], none, none, "beta".toList, none⟩)] :=
  by decide

/-- C5 (amended): editing a tracked save to a display name whose normalized
key differs re-keys the entry — the old key is removed, the new key holds
the renamed record, and all other attributes (root, filters, version,
last_sync, last_modification) are preserved — but a collision with an
existing different entry at the new key is not an error: that entry is
silently overwritten. -/
theorem c5_edit_rekey (reg : LReg) (k : Str) (s : LSave) (nn : Str)
    (hs : alGet reg k = some s) (hne : nn.isEmpty = false)
    (hkey : normalize_name nn ≠ k) :
    local_edit reg k (some nn) none none none none
      = some (alDel (alSet (alSet reg k
            { s with name := nn, id_name := normalize_name nn })
          (normalize_name nn)
          { s with name := nn, id_name := normalize_name nn }) k)
    ∧ alGet (alDel (alSet (alSet reg k
          { s with name := nn, id_name := normalize_name nn })
        (normalize_name nn)
        { s with name := nn, id_name := normalize_name nn }) k) k = none
    ∧ alGet (alDel (alSet (alSet reg k
          { s with name := nn, id_name := normalize_name nn })
        (normalize_name nn)
        { s with name := nn, id_name := normalize_name nn }) k)
        (normalize_name nn)
      = some { s with name := nn, id_name := normalize_name nn } := by
  refine ⟨?_, ?_, ?_⟩
  · unfold local_edit
    rw [hs]
    simp [hne, hkey, updStr, updOptStr, updTime]
  · exact alGet_del_self _ _
  · rw [alGet_del_ne _ hkey]
    exact alGet_set_self _ _ _

/-- Witness for C5 (amended) at a concrete registry. -/
theorem c5_edit_rekey_witness :
    local_edit
      [("a".toList, ⟨"A".toList, "/r".toList, [], none, none, "a".toList,
        none⟩)]
      "a".toList (some "B Two".toList) none none none none
    = some (alDel (alSet (alSet
          [("a".toList, ⟨"A".toList, "/r".toList, [], none, none, "a".toList,
            none⟩)]
          "a".toList
          ⟨"B Two".toList, "/r".toList, [], none, none,
           normalize_name "B Two".toList, none⟩)
        (normalize_name "B Two".toList)
        ⟨"B Two".toList, "/r".toList, [], none, none,
         normalize_name "B Two".toList, none⟩) "a".toList) :=
  (c5_edit_rekey
    [("a".toList, ⟨"A".toList, "/r".toList, [], none, none, "a".toList,
      none⟩)]
    "a".toList
    ⟨"A".toList, "/r".toList, [], none, none, "a".toList, none⟩
    "B Two".toList (by decide) (by decide) (by decide)).1

/-- C6 counterexample: registering a name whose normalized key already
exists in the remote registry does not fail and does not leave the registry
unchanged — `register_new_save` silently replaces the existing entry
(resetting its `last_upload` to null). -/
theorem c6_counterexample :
    (register_new_save
      ⟨[("a".toList,
         ⟨"a".toList, none, none, none, some 5, "a".toList, some 10⟩)],
        ["a.zip".toList]⟩
      "a".toList none none none).saves
    ≠ [("a".toList,
        ⟨"a".toList, none, none, none, some 5, "a".toList, some 10⟩)] :=
  by decide

/-- C6 (amended): `Local.track` fails (raising, with the registry left
unchanged) whenever the normalized key of the supplied name is already
tracked; `register_new_save`, however, performs no duplicate check — it
always writes a fresh entry at the normalized key, overwriting any existing
one. -/
theorem c6_track_duplicate :
    (∀ (fsys : FSys) (reg : LReg) (name root : Str)
        (filters version : Option Str),
        (alGet reg (normalize_name name)).isSome = true →
        local_track fsys reg name root filters version = none)
    ∧ (∀ (st : RState) (name : Str) (rh fh v : Option Str),
        (register_new_save st name rh fh v).saves
          = alSet st.saves (normalize_name name)
              ⟨name, rh, fh, v, none, normalize_name name, none⟩) := by
  refine ⟨?_, ?_⟩
  · intro fsys reg name root filters version h
    unfold local_track
    simp [h]
  · intro st name rh fh v
    rfl

/-- Witness for C6 (amended) at a concrete registry. -/
theorem c6_track_duplicate_witness :
    local_track []
      [("g".toList, ⟨"G".toList, "/r".toList, [], none, none, "g".toList,
        none⟩)]
      "G".toList "/other".toList none none = none :=
  c6_track_duplicate.1 []
    [("g".toList, ⟨"G".toList, "/r".toList, [], none, none, "g".toList,
      none⟩)]
    "G".toList "/other".toList none none (by decide)

/-- C7: deleting a remote save removes the registry entry and the stored
artifact together, the artifact being deleted before the registry document
is committed, so no state with the registry entry gone but the artifact
still stored (an orphan) is ever reached from a non-orphaned state; and
after a successful delete, `load_save` for that key reports NotFound. -/
theorem c7_delete_no_orphan (st : RState) (id : Str)
    (h0 : ¬ orphaned st id) :
    (∀ t ∈ delete_trace st id, ¬ orphaned t id)
    ∧ (∀ st2, delete_save st id = some st2 → load_save st2 id = false) := by
  cases hg : alGet st.saves id with
  | none =>
    refine ⟨?_, ?_⟩
    · intro t ht
      unfold delete_trace at ht
      rw [hg] at ht
      simp only [List.mem_singleton] at ht
      subst ht
      exact h0
    · intro st2 h2
      unfold delete_save at h2
      rw [hg] at h2
      cases h2
  | some s =>
    by_cases hf : filesave_name id ∈ st.files
    · refine ⟨?_, ?_⟩
      · intro t ht
        unfold delete_trace at ht
        rw [hg] at ht
        simp only [hf, if_true, List.mem_cons, List.mem_singleton,
          List.not_mem_nil, or_false] at ht
        rcases ht with rfl | rfl | rfl
        · exact h0
        · rintro ⟨h1, _⟩
          rw [hg] at h1
          cases h1
        · rintro ⟨_, h2⟩
          rcases List.mem_filter.mp h2 with ⟨_, hp⟩
          simp at hp
      · intro st2 h2
        unfold delete_save at h2
        rw [hg] at h2
        rw [if_pos hf] at h2
        cases h2
        simp [load_save, List.mem_filter]
    · refine ⟨?_, ?_⟩
      · intro t ht
        unfold delete_trace at ht
        rw [hg] at ht
        rw [if_neg hf] at ht
        simp only [List.mem_singleton] at ht
        subst ht
        exact h0
      · intro st2 h2
        unfold delete_save at h2
        rw [hg] at h2
        rw [if_neg hf] at h2
        cases h2

/-- Witness for C7 at a concrete remote state. -/
theorem c7_delete_no_orphan_witness :
    load_save (⟨[], []⟩ : RState) "g".toList = false :=
  (c7_delete_no_orphan
    ⟨[("g".toList, ⟨"g".toList, none, none, none, some 4, "g".toList,
       some 2⟩)],
      ["g.zip".toList]⟩
    "g".toList (by decide)).2 ⟨[], []⟩ (by decide)

/-- C10 counterexample: supplying an empty-string filter expression to
`Local.edit` does not replace the stored filter — Python truthiness treats
the empty string like an absent argument, so the entry (here with filters
`x`) is returned unchanged instead of having its filters cleared. -/
theorem c10_counterexample :
    local_edit
      [("g".toList,
        ⟨"G".toList, "/r".toList, "x".toList, some "1".toList, some 2,
         "g".toList, some 7⟩)]
      "g".toList none none (some []) none none
    = some
      [("g".toList,
        ⟨"G".toList, "/r".toList, "x".toList, some "1".toList, some 2,
         "g".toList, some 7⟩)] := by decide

/-- C10 (amended): for `Local.edit` and remote `edit_save` without a rename,
fields for which no argument is supplied keep their previous values, and a
supplied value replaces exactly its own field — but only when it is truthy:
a supplied empty-string filter expression or version is ignored, leaving the
field unchanged.  Entries at other keys are never touched. -/
theorem c10_partial_edit :
    (∀ (reg : LReg) (k : Str) (s : LSave) (root filters version : Option Str)
        (ls : Option Nat),
        alGet reg k = some s →
        local_edit reg k none root filters version ls
          = some (alSet reg k
              ⟨s.name, updStr s.root root, updStr s.filters filters,
               updOptStr s.version version, updTime s.last_sync ls,
               s.id_name, s.last_modification⟩))
    ∧ (∀ (st : RState) (id : Str) (s : RSave) (rh fh v : Option Str),
        alGet st.saves id = some s →
        edit_save st id none rh fh v
          = some ⟨alSet st.saves id
              ⟨s.name, updOptStr s.root_hint rh, updOptStr s.filters_hint fh,
               updOptStr s.version v, s.last_upload, s.id_name, s.size⟩,
              st.files⟩)
    ∧ (∀ (reg : LReg) (k kx : Str) (v : LSave), kx ≠ k →
        alGet (alSet reg k v) kx = alGet reg kx) := by
  refine ⟨?_, ?_, ?_⟩
  · intro reg k s root filters version ls hs
    unfold local_edit
    rw [hs]
  · intro st id s rh fh v hs
    unfold edit_save
    rw [hs]
  · intro reg k kx v h
    exact alGet_set_ne reg v h

/-- Witness for C10 (amended) at a concrete registry: an edit that supplies
only a new version replaces exactly that field. -/
theorem c10_partial_edit_witness :
    local_edit
      [("g".toList,
        ⟨"G".toList, "/r".toList, "x".toList, some "1".toList, some 2,
         "g".toList, some 7⟩)]
      "g".toList none none none (some "2".toList) none
    = some (alSet
        [("g".toList,
          ⟨"G".toList, "/r".toList, "x".toList, some "1".toList, some 2,
           "g".toList, some 7⟩)]
        "g".toList
        ⟨"G".toList, updStr "/r".toList none, updStr "x".toList none,
         updOptStr (some "1".toList) (some "2".toList),
         updTime (some 2) none, "g".toList, some 7⟩) :=
  c10_partial_edit.1
    [("g".toList,
      ⟨"G".toList, "/r".toList, "x".toList, some "1".toList, some 2,
       "g".toList, some 7⟩)]
    "g".toList
    ⟨"G".toList, "/r".toList, "x".toList, some "1".toList, some 2,
     "g".toList, some 7⟩
    none none (some "2".toList) none (by decide)

/-- Translation of `pyCloudSave.Application.is_remote_updated`: the remote
upload time (minimum time when the remote entry is absent or never uploaded)
is strictly later than the local last-sync time (minimum time when null). -/
def is_remote_updated (ls : LSave) (rs : Option RSave) : Bool :=
  let remote_last_upload :=
    match rs with
    | some r =>
      match r.last_upload with
      | some t => t
      | none => 0
    | none => 0
  decide (remote_last_upload > ls.last_sync.getD 0)

/-- Translation of `pyCloudSave.Application.is_local_updated`: the derived
local modification time is strictly later than the local last-sync time,
nulls again reading as the minimum time. -/
def is_local_updated (ls : LSave) : Bool :=
  decide (ls.last_modification.getD 0 > ls.last_sync.getD 0)

/-- Outcome chosen by the reconciler for one save key. -/
inductive SyncAction where
  | noop
  | upload
  | download
  | conflict
deriving DecidableEq

/-- The branch structure of `Application._sync`: conflict when both sides
changed, else upload on a local change, else download on a remote change,
else nothing. -/
def syncDecision (ls : LSave) (rs : Option RSave) : SyncAction :=
  let ru := is_remote_updated ls rs
  let lu := is_local_updated ls
  if ru && lu then SyncAction.conflict
  else if lu then SyncAction.upload
  else if ru then SyncAction.download
  else SyncAction.noop

/-- Combined state of the local registry and the remote store as touched by
the reconciler. -/
structure SyncState where
  localReg : LReg
  remote : RState
deriving DecidableEq

/-- The effect of `Application._upload` on the registries: register the
remote entry when absent (carrying root/filters/version as hints), upload
the packed artifact (abstracted to its size `sz`) stamped with the current
time `now`, then stamp the local `last_sync` with the same time.  The
temporary archive file is outside both registries and tracked separately
for C8. -/
def uploadEffect (now sz : Nat) (st : SyncState) (id : Str) : SyncState :=
  match alGet st.localReg id with
  | none => st
  | some ls =>
    let r1 :=
      match alGet st.remote.saves id with
      | some _ => st.remote
      | none =>
        register_new_save st.remote ls.name (some ls.root) (some ls.filters)
          ls.version
    match upload_save r1 id sz now with
    | none => { st with remote := r1 }
    | some r2 =>
      match local_edit st.localReg id none none none none (some now) with
      | some lr => ⟨lr, r2⟩
      | none => { st with remote := r2 }

/-- The effect of `Application._load` on the registries: download the
artifact (failing with NotFound when absent, in which case nothing is
stamped), unpack it into the save root (outside both registries), then
stamp the local `last_sync` with the current time. -/
def loadEffect (now : Nat) (st : SyncState) (id : Str) : SyncState :=
  match alGet st.localReg id with
  | none => st
  | some _ =>
    if load_save st.remote id then
      match local_edit st.localReg id none none none none (some now) with
      | some lr => { st with localReg := lr }
      | none => st
    else st

/-- Translation of `Application._sync`: compute the two updated flags and
branch — conflict prints a warning and performs no I/O, the other branches
delegate to `_upload` / `_load`. -/
def syncStep (now sz : Nat) (st : SyncState) (id : Str) : SyncState :=
  match alGet st.localReg id with
  | none => st
  | some ls =>
    let ru := is_remote_updated ls (alGet st.remote.saves id)
    let lu := is_local_updated ls
    if ru && lu then st
    else if lu then uploadEffect now sz st id
    else if ru then loadEffect now st id
    else st

theorem is_remote_updated_iff (ls : LSave) (rs : Option RSave) :
    is_remote_updated ls rs = true
      ↔ ((rs.bind RSave.last_upload).getD 0 > ls.last_sync.getD 0) := by
  cases rs with
  | none => simp [is_remote_updated]
  | some r => cases hr : r.last_upload <;> simp [is_remote_updated, hr]

theorem is_local_updated_iff (ls : LSave) :
    is_local_updated ls = true
      ↔ (ls.last_modification.getD 0 > ls.last_sync.getD 0) := by
  simp [is_local_updated]

/-- C1: for every save key, the reconciler's decision is determined by the
strict comparisons `remote_last_upload > local_last_sync` (remote updated)
and `local_last_modification > local_last_sync` (local updated), with null
timestamps — including an absent remote entry — read as the minimum time 0:
no operation when neither holds (state unchanged), upload when only the
local side changed, download when only the remote side changed, and when
both hold a conflict is reported with neither upload nor download performed,
leaving both registries unchanged. -/
theorem c1_reconciler_decision (now sz : Nat) (st : SyncState) (id : Str)
    (ls : LSave) (hl : alGet st.localReg id = some ls) :
    (¬ ((alGet st.remote.saves id).bind RSave.last_upload).getD 0
         > ls.last_sync.getD 0 →
     ¬ ls.last_modification.getD 0 > ls.last_sync.getD 0 →
       syncDecision ls (alGet st.remote.saves id) = SyncAction.noop
       ∧ syncStep now sz st id = st)
    ∧ (¬ ((alGet st.remote.saves id).bind RSave.last_upload).getD 0
         > ls.last_sync.getD 0 →
       ls.last_modification.getD 0 > ls.last_sync.getD 0 →
       syncDecision ls (alGet st.remote.saves id) = SyncAction.upload
       ∧ syncStep now sz st id = uploadEffect now sz st id)
    ∧ (((alGet st.remote.saves id).bind RSave.last_upload).getD 0
         > ls.last_sync.getD 0 →
       ¬ ls.last_modification.getD 0 > ls.last_sync.getD 0 →
       syncDecision ls (alGet st.remote.saves id) = SyncAction.download
       ∧ syncStep now sz st id = loadEffect now st id)
    ∧ (((alGet st.remote.saves id).bind RSave.last_upload).getD 0
         > ls.last_sync.getD 0 →
       ls.last_modification.getD 0 > ls.last_sync.getD 0 →
       syncDecision ls (alGet st.remote.saves id) = SyncAction.conflict
       ∧ syncStep now sz st id = st) := by
  refine ⟨?_, ?_, ?_, ?_⟩
  · intro h1 h2
    have hR : is_remote_updated ls (alGet st.remote.saves id) = false :=
      Bool.eq_false_iff.mpr (fun hb => h1 ((is_remote_updated_iff ls _).mp hb))
    have hL : is_local_updated ls = false :=
      Bool.eq_false_iff.mpr (fun hb => h2 ((is_local_updated_iff ls).mp hb))
    exact ⟨by simp [syncDecision, hR, hL], by simp [syncStep, hl, hR, hL]⟩
  · intro h1 h2
    have hR : is_remote_updated ls (alGet st.remote.saves id) = false :=
      Bool.eq_false_iff.mpr (fun hb => h1 ((is_remote_updated_iff ls _).mp hb))
    have hL : is_local_updated ls = true := (is_local_updated_iff ls).mpr h2
    exact ⟨by simp [syncDecision, hR, hL], by simp [syncStep, hl, hR, hL]⟩
  · intro h1 h2
    have hR : is_remote_updated ls (alGet st.remote.saves id) = true :=
      (is_remote_updated_iff ls _).mpr h1
    have hL : is_local_updated ls = false :=
      Bool.eq_false_iff.mpr (fun hb => h2 ((is_local_updated_iff ls).mp hb))
    exact ⟨by simp [syncDecision, hR, hL], by simp [syncStep, hl, hR, hL]⟩
  · intro h1 h2
    have hR : is_remote_updated ls (alGet st.remote.saves id) = true :=
      (is_remote_updated_iff ls _).mpr h1
    have hL : is_local_updated ls = true := (is_local_updated_iff ls).mpr h2
    exact ⟨by simp [syncDecision, hR, hL], by simp [syncStep, hl, hR, hL]⟩

/-- Witness for C1 at a concrete conflicted state: local modified at 5 and
remote uploaded at 7, both after the last sync at 1 — sync reports the
conflict and leaves the state untouched. -/
theorem c1_reconciler_decision_witness :
    syncDecision
      ⟨"G".toList, "/r".toList, [], none, some 1, "g".toList, some 5⟩
      (alGet
        (⟨[("g".toList,
            ⟨"G".toList, none, none, none, some 7, "g".toList, some 3⟩)],
          ["g.zip".toList]⟩ : RState).saves "g".toList)
      = SyncAction.conflict
    ∧ syncStep 9 4
        ⟨[("g".toList,
           ⟨"G".toList, "/r".toList, [], none, some 1, "g".toList, some 5⟩)],
         ⟨[("g".toList,
            ⟨"G".toList, none, none, none, some 7, "g".toList, some 3⟩)],
          ["g.zip".toList]⟩⟩
        "g".toList
      = ⟨[("g".toList,
           ⟨"G".toList, "/r".toList, [], none, some 1, "g".toList, some 5⟩)],
         ⟨[("g".toList,
            ⟨"G".toList, none, none, none, some 7, "g".toList, some 3⟩)],
          ["g.zip".toList]⟩⟩ :=
  (c1_reconciler_decision 9 4
    ⟨[("g".toList,
       ⟨"G".toList, "/r".toList, [], none, some 1, "g".toList, some 5⟩)],
     ⟨[("g".toList,
        ⟨"G".toList, none, none, none, some 7, "g".toList, some 3⟩)],
      ["g.zip".toList]⟩⟩
    "g".toList
    ⟨"G".toList, "/r".toList, [], none, some 1, "g".toList, some 5⟩
    (by decide)).2.2.2 (by decide) (by decide)

/-- Whether the temporary archive file still exists when
`Application._upload` terminates (normally or by a propagating exception),
as a function of which step fails.  `ZipFile(output, 'w')` inside
`pack_save_files` creates the temporary file before any entry is written;
`tmp_file.unlink()` is the last statement of `_upload` and there is no
`try`/`finally`, so any exception raised by packing, by the backend transfer
in `upload_save`, or by the registry stamp skips the unlink. -/
def upload_temp_left (packOk sendOk : Bool) : Bool :=
  if packOk = false then true
  else if sendOk = false then true
  else false

/-- Whether the temporary archive file still exists when
`Application._load` terminates, as a function of which step fails.  When
`load_save` raises NotFound the backend has not created the temporary file;
when the download succeeds but `unpack_save_files` raises (corrupt
archive), the temporary file exists and `tmp_file.unlink()` is never
reached. -/
def load_temp_left (downloadOk unpackOk : Bool) : Bool :=
  if downloadOk = false then false
  else if unpackOk = false then true
  else false

/-- C8: the claim states the temporary archive is removed on the success
path and on every failure path; the code removes it only on success — a
failing backend transfer during upload, or a failing unpack during load,
leaves the temporary file behind (there is no `try`/`finally` in `_upload`
or `_load`). -/
theorem c8_temp_leak :
    upload_temp_left true false = true
    ∧ load_temp_left true false = true
    ∧ upload_temp_left true true = false
    ∧ load_temp_left true true = false := by decide
